import Mathlib

/-!
Verification development for the dtek-monitor-bot repository.

Shallow embedding of the core components described in the design spec:
  * Grid Parser        (src/main.py, `parse_file`)
  * Interval Extractor (src/bot.py, `extract_off_intervals`)
  * Result Cache       (src/cache.py `ScheduleCache`,
                        src/persistent_cache.py `PersistentScheduleCache`)
  * Task Executor      (src/parser_service.py, `_parse_with_retry` / `_run_automation`)
  * Job Scheduler      (src/parser_service.py, worker loop / `submit_task`)

Machine timestamps are modelled as natural numbers (abstract time units);
datetime subtraction `now - ts > ttl` becomes truncated Nat subtraction, which
agrees with the source whenever `now ≥ ts` and is also `False > ttl`-safe for
`now < ts` (a negative timedelta is never `>` a nonnegative ttl).
-/

set_option maxRecDepth 4000

/-! ## String primitives

The source only ever splits on the single characters `-` and `:`, formats
small naturals with `f"{n:02d}"`, parses decimal ints and tests substring
membership.  These are embedded as structurally recursive functions over the
character list of a `String` so that every definition evaluates by kernel
reduction. -/

/-- Worker for `splitOnChar`: `acc` holds the current piece reversed. -/
def splitCharAux (sep : Char) : List Char → List Char → List (List Char)
  | [], acc => [acc.reverse]
  | c :: cs, acc =>
    if c = sep then acc.reverse :: splitCharAux sep cs []
    else splitCharAux sep cs (c :: acc)

/-- Python `s.split(sep)` for a one-character separator. -/
def splitOnChar (sep : Char) (s : String) : List String :=
  (splitCharAux sep s.toList []).map (fun cs => String.mk cs)

/-- The decimal digit character for `n < 10`. -/
def digitChar (n : Nat) : Char := Char.ofNat (48 + n)

/-- Decimal digits of `n`, most significant first; `fuel ≥ n + 1` suffices. -/
def natDigitsAux : Nat → Nat → List Char
  | 0, _ => []
  | fuel+1, n =>
    if n < 10 then [digitChar n]
    else natDigitsAux fuel (n / 10) ++ [digitChar (n % 10)]

/-- Python `str(n)` for a natural number. -/
def natToStr (n : Nat) : String := String.mk (natDigitsAux (n+1) n)

/-- Value of a decimal digit character. -/
def digitVal? (c : Char) : Option Nat :=
  if '0' ≤ c ∧ c ≤ '9' then some (c.toNat - '0'.toNat) else none

/-- Accumulating decimal parse; fails on any non-digit. -/
def toNatDigitsGo : List Char → Nat → Option Nat
  | [], acc => some acc
  | c :: cs, acc =>
    match digitVal? c with
    | some d => toNatDigitsGo cs (acc * 10 + d)
    | none => none

/-- Python `int(s)` on the plain digit strings appearing here (`none` models
the `ValueError` on an empty or non-numeric string). -/
def strToNat? (s : String) : Option Nat :=
  match s.toList with
  | [] => none
  | cs => toNatDigitsGo cs 0

/-- `pat` is a leading segment of `hay`. -/
def startsWithL : List Char → List Char → Bool
  | _, [] => true
  | [], _ :: _ => false
  | c :: cs, p :: ps => c = p && startsWithL cs ps

/-- `pat` occurs contiguously somewhere in `hay`. -/
def containsSubL (pat : List Char) : List Char → Bool
  | [] => pat.isEmpty
  | c :: cs => startsWithL (c :: cs) pat || containsSubL pat cs

/-! ## Grid Parser data model (src/main.py)

The parser reads a BeautifulSoup document.  The embedding keeps exactly the
observations `parse_file` makes of the HTML: whether a `discon-fact-table`
table exists, the two header extraction strategies, the tbody rows with their
class lists and td cells with their class lists. -/

/-- One `<td>` cell: the parser only reads its `class` attribute list. -/
structure Cell where
  classes : List String
  deriving DecidableEq, Repr

/-- One `<tbody> <tr>` row: its own class list and its `<td>` children. -/
structure Row where
  classes : List String
  tds : List Cell
  deriving DecidableEq, Repr

/-- The outage table as observed by `parse_file`: the texts of
`thead th[scope='col']` headers, the fallback `thead th div` texts, and the
`tbody tr` rows. -/
structure Table where
  colHeaders : List String
  divHeaders : List String
  rows : List Row
  deriving DecidableEq, Repr

/-- The document: `select_one("div.discon-fact-table.active table") or
select_one("div.discon-fact-table table")` collapses to an optional table. -/
structure HtmlDoc where
  table : Option Table
  deriving DecidableEq, Repr

/-- One emitted half-hour schedule entry
`{"interval": "HH:MM-HH:MM", "status": "on"/"off"/"unknown"}`. -/
structure ScheduleItem where
  interval : String
  status : String
  deriving DecidableEq, Repr

/-- `OFF_CLASSES = {"cell-scheduled", "cell-scheduled-maybe", "cell-scheduled-maybe "}` -/
def OFF_CLASSES : List String :=
  ["cell-scheduled", "cell-scheduled-maybe", "cell-scheduled-maybe "]

/-- `ON_CLASSES = {"cell-non-scheduled"}` -/
def ON_CLASSES : List String := ["cell-non-scheduled"]

/-- `FIRST_HALF = "cell-first-half"` -/
def FIRST_HALF : String := "cell-first-half"

/-- `SECOND_HALF = "cell-second-half"` -/
def SECOND_HALF : String := "cell-second-half"

/-- Python `pat in s` substring test. -/
def strContains (s pat : String) : Bool :=
  containsSubL pat.toList s.toList

/-- Python `f"{n:02d}"` for a natural number. -/
def pad2 (n : Nat) : String :=
  if n < 10 then "0" ++ natToStr n else natToStr n

/-- Row flagged as the current day:
`tr.find("td", class_="current-day") or "current-day" in (tr.get("class") or [])`. -/
def rowIsCurrentDay (r : Row) : Bool :=
  r.tds.any (fun td => td.classes.contains "current-day")
    || r.classes.contains "current-day"

/-- Hour derivation for column `i` with header text `header`:
`try: hh = int(header.split("-")[0]) + 1 except: hh = i`.
Note the `+ 1`, although the comment right above it in the source reads
`# header example "00-01" -> start_hour = 0`. -/
def headerHour (i : Nat) (header : String) : Nat :=
  match strToNat? ((splitOnChar '-' header).headD "") with
  | some n => n + 1
  | none => i

/-- The cell-classification cascade of `parse_file` (lines 86–111), producing
the two half-hour entries for one column: ON_CLASSES, OFF_CLASSES,
FIRST_HALF, SECOND_HALF, then the substring fallbacks `"non-sched"` /
`"schedul"` over the joined class string (the patterns contain no space, so
membership in the `" ".join` equals membership in some class token), else
unknown.  Python's `classes` is a set; intersection-nonempty is `List.any`. -/
def classifyCell (classes : List String) (half1 half2 : String) : List ScheduleItem :=
  if classes.any (fun c => ON_CLASSES.contains c) then
    [⟨half1, "on"⟩, ⟨half2, "on"⟩]
  else if classes.any (fun c => OFF_CLASSES.contains c) then
    [⟨half1, "off"⟩, ⟨half2, "off"⟩]
  else if classes.contains FIRST_HALF then
    [⟨half1, "off"⟩, ⟨half2, "on"⟩]
  else if classes.contains SECOND_HALF then
    [⟨half1, "on"⟩, ⟨half2, "off"⟩]
  else if classes.any (fun c => strContains c "non-sched") then
    [⟨half1, "on"⟩, ⟨half2, "on"⟩]
  else if classes.any (fun c => strContains c "schedul") then
    [⟨half1, "off"⟩, ⟨half2, "off"⟩]
  else
    [⟨half1, "unknown"⟩, ⟨half2, "unknown"⟩]

/-- The two half-hour interval labels and statuses for column `i`:
`half1 = f"{hh:02d}:00-{hh:02d}:30"`, `next_h = (hh + 1) % 24`,
`half2 = f"{hh:02d}:30-{next_h:02d}:00"`. -/
def slotPair (i : Nat) (header : String) (cellClasses : List String) : List ScheduleItem :=
  let hh := headerHour i header
  let half1 := pad2 hh ++ ":00-" ++ pad2 hh ++ ":30"
  let nexth := (hh + 1) % 24
  let half2 := pad2 hh ++ ":30-" ++ pad2 nexth ++ ":00"
  classifyCell cellClasses half1 half2

/-- Cell/header alignment (lines 61–67): `cells = tds[2:]`, then if the
lengths differ truncate both to the shorter length. -/
def alignCells (tds : List Cell) (headers : List String) :
    List Cell × List String :=
  let cells := tds.drop 2
  if cells.length ≠ headers.length then
    let n := min cells.length headers.length
    (cells.take n, headers.take n)
  else
    (cells, headers)

/-- Row selection (lines 42–58): first row flagged current-day, else the last
tbody row; `none` when the tbody has no rows (the source then raises). -/
def selectRow (rows : List Row) : Option Row :=
  match rows.find? rowIsCurrentDay with
  | some r => some r
  | none => rows.getLast?

/-- `parse_file` (src/main.py lines 24–113) over the observed document
structure.  `.error` stands for the two `raise RuntimeError` sites; all other
paths return a best-effort schedule.  The per-column cell access
`cells[i] if i < len(cells) else None` / `set(cell.get("class") or [])`
becomes an optional lookup defaulting to the empty class list. -/
def parse_file (doc : HtmlDoc) : Except String (List ScheduleItem) :=
  match doc.table with
  | none => .error "StructureNotFound"
  | some table =>
    let headers0 := table.colHeaders
    let headers := if headers0.isEmpty then table.divHeaders else headers0
    match selectRow table.rows with
    | none => .error "CurrentDayRowNotFound"
    | some row =>
      let pair := alignCells row.tds headers
      let cells := pair.1
      let headers2 := pair.2
      .ok (headers2.enum.flatMap
        (fun ih => slotPair ih.1 ih.2 (((cells.get? ih.1).map Cell.classes).getD [])))

/-! ## Claims C1, C5, C6 — Grid Parser -/

/-- A minimal one-column current-day document: header `hdr`, and a flagged row
whose two leading label cells are followed by one `cell-non-scheduled` cell. -/
def oneColDoc (hdr : String) : HtmlDoc :=
  ⟨some ⟨[hdr], [], [⟨["current-day"], [⟨[]⟩, ⟨[]⟩, ⟨["cell-non-scheduled"]⟩]⟩]⟩⟩

/-- C1 (code_bug): the spec and the source's own comment
(`# header example "00-01" -> start_hour = 0`) say the slot hour is the
header's leading number, but the code computes `hh = int(header.split("-")[0]) + 1`.
Evaluating the embedded `parse_file` at the failing inputs: header `"00-01"`
yields the two slots starting at 01:00 (not 00:00 and 00:30), and the last
header of a full day, `"23-24"`, yields the ill-formed labels
`24:00-24:30` and `24:30-01:00` — so a full 24-column day covers
01:00 through 24:30 rather than 00:00 through 23:30. -/
theorem c1_hour_derivation_bug :
    parse_file (oneColDoc "00-01") =
      .ok [⟨"01:00-01:30", "on"⟩, ⟨"01:30-02:00", "on"⟩] ∧
    parse_file (oneColDoc "23-24") =
      .ok [⟨"24:00-24:30", "on"⟩, ⟨"24:30-01:00", "on"⟩] :=
  ⟨rfl, rfl⟩

/-- `selectRow` returns `none` exactly on an empty tbody: a current-day flag
is not required (the source falls back to the last row), but an empty row
list reaches the second `raise RuntimeError`. -/
theorem selectRow_eq_none_iff (rows : List Row) :
    selectRow rows = none ↔ rows = [] := by
  unfold selectRow
  cases hf : rows.find? rowIsCurrentDay with
  | some r =>
    simp only [reduceCtorEq, false_iff]
    intro h
    subst h
    simp at hf
  | none =>
    cases rows <;> simp [List.getLast?_eq_getLast]

/-- C5 counterexample: a document whose outage table is present but whose
tbody has no rows makes `parse_file` raise, refuting "raises an error if and
only if the outage table is absent". -/
theorem c5_counterexample :
    parse_file ⟨some ⟨["00-01"], [], []⟩⟩ = .error "CurrentDayRowNotFound" ∧
    (⟨some ⟨["00-01"], [], []⟩⟩ : HtmlDoc).table ≠ none :=
  ⟨rfl, by simp⟩

/-- C5 (amended): the Grid Parser errors iff the outage table is absent or
the table body has no rows at all; for every other document it returns a
best-effort schedule — missing headers, a missing day marker (with at least
one row present), unrecognized cells and length mismatches never abort. -/
theorem c5_error_iff_no_table_or_no_rows (doc : HtmlDoc) :
    (∃ msg, parse_file doc = .error msg) ↔
      (doc.table = none ∨ ∃ t, doc.table = some t ∧ t.rows = []) := by
  match hdoc : doc.table with
  | none =>
    constructor
    · intro _
      exact Or.inl rfl
    · intro _
      exact ⟨"StructureNotFound", by simp [parse_file, hdoc]⟩
  | some t =>
    cases hr : selectRow t.rows with
    | none =>
      constructor
      · intro _
        exact Or.inr ⟨t, rfl, (selectRow_eq_none_iff t.rows).mp hr⟩
      · intro _
        exact ⟨"CurrentDayRowNotFound", by simp [parse_file, hdoc, hr]⟩
    | some row =>
      constructor
      · rintro ⟨msg, hmsg⟩
        simp [parse_file, hdoc, hr] at hmsg
      · rintro (h | ⟨t2, ht2, hrows⟩)
        · simp [hdoc] at h
        · cases ht2
          rw [hrows] at hr
          simp [selectRow] at hr

/-- The alignment rule exactly as claim C6 (and §4.2 step 4 of the spec)
states it: trim `len(cells) - len(headers)` leading cells, then truncate both
lists to the shorter length.  Stated only for comparison against the source's
`alignCells`, which always drops exactly the first two cells. -/
def alignCellsClaim (tds : List Cell) (headers : List String) :
    List Cell × List String :=
  let cells := tds.drop (tds.length - headers.length)
  let n := min cells.length headers.length
  (cells.take n, headers.take n)

/-- The row used for the C6 counterexample: two empty label cells, an "on"
cell, an empty cell and an "off" cell. -/
def c6Tds : List Cell :=
  [⟨[]⟩, ⟨[]⟩, ⟨["cell-non-scheduled"]⟩, ⟨[]⟩, ⟨["cell-scheduled"]⟩]

/-- C6 counterexample: with header count 1 and row cell count 5 the code
drops exactly 2 leading cells and pairs the header with the third cell
(class `cell-non-scheduled`, status "on"), whereas the claimed rule would
drop `5 - 1 = 4` cells and pair it with the fifth (`cell-scheduled`, "off").
The two alignments disagree and the parsed statuses show the code used the
third cell. -/
theorem c6_counterexample :
    alignCells c6Tds ["00-01"] ≠ alignCellsClaim c6Tds ["00-01"] ∧
    alignCells c6Tds ["00-01"] = ([⟨["cell-non-scheduled"]⟩], ["00-01"]) ∧
    alignCellsClaim c6Tds ["00-01"] = ([⟨["cell-scheduled"]⟩], ["00-01"]) ∧
    parse_file ⟨some ⟨["00-01"], [], [⟨["current-day"], c6Tds⟩]⟩⟩ =
      .ok [⟨"01:00-01:30", "on"⟩, ⟨"01:30-02:00", "on"⟩] := by
  refine ⟨by decide, rfl, rfl, rfl⟩

/-- C6 (amended): the Grid Parser always trims exactly the first 2 row cells
regardless of their content and of the header count, then truncates both
lists to the shorter length; only in the particular case
`len(cells) = len(headers) + 2` does this coincide with the claimed rule of
trimming `len(cells) - len(headers)` leading cells. -/
theorem c6_align_always_drops_two (tds : List Cell) (headers : List String) :
    (alignCells tds headers).1 =
      (tds.drop 2).take (min (tds.drop 2).length headers.length) ∧
    (alignCells tds headers).2 =
      headers.take (min (tds.drop 2).length headers.length) ∧
    (tds.length = headers.length + 2 →
      alignCells tds headers = alignCellsClaim tds headers) := by
  refine ⟨?_, ?_, ?_⟩
  · unfold alignCells
    by_cases h : tds.length - 2 = headers.length <;>
      simp [List.length_drop, h, List.take_length, min_self]
  · unfold alignCells
    by_cases h : tds.length - 2 = headers.length <;>
      simp [List.length_drop, h, List.take_length, min_self]
  · intro hlen
    have hd : (tds.drop 2).length = headers.length := by
      simp [List.length_drop, hlen]
    have hsub : tds.length - headers.length = 2 := by omega
    unfold alignCells alignCellsClaim
    simp [hd, hsub, List.take_length, min_self]

/-- Witness for the hypothesis of `c6_align_always_drops_two`: at a concrete
row with 3 cells and 1 header the code alignment and the claimed alignment
coincide. -/
theorem c6_align_always_drops_two_witness :
    alignCells [⟨[]⟩, ⟨[]⟩, ⟨["x"]⟩] ["00-01"] =
      alignCellsClaim [⟨[]⟩, ⟨[]⟩, ⟨["x"]⟩] ["00-01"] :=
  (c6_align_always_drops_two [⟨[]⟩, ⟨[]⟩, ⟨["x"]⟩] ["00-01"]).2.2 (by decide)

/-! ## Result Cache (src/cache.py `ScheduleCache`,
src/persistent_cache.py `PersistentScheduleCache`)

Python dicts are insertion-ordered; both caches are embedded as association
lists with: `lookupKey` (`cache[k]` / `k in cache`), `setKey`
(`cache[k] = v`: in-place overwrite or append), `eraseKey` (`del cache[k]`)
and `minByTs`/`oldestKey` (`min(cache.keys(), key=...)`, which keeps the
first element attaining the minimum).  The MD5 digest of `_make_key` is an
unknown pure function `md5hex` passed as a parameter: every fact proved here
holds for an arbitrary digest, since the caches only ever compare keys for
equality. -/

/-- Dict lookup `cache.get(k)`. -/
def lookupKey {α : Type} (k : String) : List (String × α) → Option α
  | [] => none
  | kv :: rest => if kv.1 = k then some kv.2 else lookupKey k rest

/-- Dict assignment `cache[k] = v`: overwrite in place, else append. -/
def setKey {α : Type} (k : String) (v : α) : List (String × α) → List (String × α)
  | [] => [(k, v)]
  | kv :: rest => if kv.1 = k then (k, v) :: rest else kv :: setKey k v rest

/-- Dict deletion `del cache[k]`. -/
def eraseKey {α : Type} (k : String) : List (String × α) → List (String × α)
  | [] => []
  | kv :: rest => if kv.1 = k then rest else kv :: eraseKey k rest

/-- Python `min(..., key=tsf)` scan: keep the current best, replace only on a
strictly smaller key value (so the first minimum wins ties). -/
def minByTs {α : Type} (tsf : α → Nat) (best : String × α) :
    List (String × α) → String × α
  | [] => best
  | kv :: rest => minByTs tsf (if tsf kv.2 < tsf best.2 then kv else best) rest

/-- `min(self.cache.keys(), key=lambda k: self.cache[k]['timestamp'])`;
`none` on an empty dict (where the source's `min` would raise). -/
def oldestKey {α : Type} (tsf : α → Nat) : List (String × α) → Option String
  | [] => none
  | kv :: rest => some (minByTs tsf kv rest).1

/-- `_make_key`: the MD5 hexdigest of
`f"{city}|{street}|{house}|{url}|{next_day}"` (Python formats the bool as
`"True"`/`"False"`). -/
def make_key (md5hex : String → String)
    (city street house url : String) (next_day : Bool) : String :=
  md5hex (city ++ "|" ++ street ++ "|" ++ house ++ "|" ++ url ++ "|" ++
    (if next_day then "True" else "False"))

/-- One in-memory cache entry: `{'schedule': ..., 'timestamp': ...}`. -/
structure CacheEntry where
  schedule : List ScheduleItem
  timestamp : Nat
  deriving DecidableEq, Repr

/-- The full mutable state of a `ScheduleCache` object (src/cache.py): the
dict, `max_size` and `ttl`.  Note there are no hit/miss counter fields — the
source class has none. -/
structure ScheduleCacheState where
  cache : List (String × CacheEntry)
  max_size : Nat
  ttl : Nat
  deriving DecidableEq, Repr

/-- `_is_expired`: `datetime.now() - entry['timestamp'] > self.ttl`. -/
def isExpired (now ttl : Nat) (e : CacheEntry) : Bool :=
  ttl < now - e.timestamp

/-- `_cleanup_expired`: delete every expired entry (order preserved). -/
def cleanupExpired (now : Nat) (st : ScheduleCacheState) : ScheduleCacheState :=
  { st with cache := st.cache.filter (fun kv => !isExpired now st.ttl kv.2) }

/-- `_evict_if_needed`: if `len(cache) >= max_size`, delete the single entry
with the minimal creation timestamp.  (On an empty dict with `max_size = 0`
the source's `min([])` would raise; modelled as a no-op, unreachable in the
theorems below, which assume a positive capacity.) -/
def evictIfNeeded (st : ScheduleCacheState) : ScheduleCacheState :=
  if st.max_size ≤ st.cache.length then
    match oldestKey (fun e : CacheEntry => e.timestamp) st.cache with
    | some k => { st with cache := eraseKey k st.cache }
    | none => st
  else st

/-- `ScheduleCache.get` (src/cache.py lines 37–48), returning the Python
return value together with the state after the call. -/
def ScheduleCache.get (md5hex : String → String) (now : Nat)
    (st : ScheduleCacheState) (city street house url : String)
    (next_day : Bool) : Option (List ScheduleItem) × ScheduleCacheState :=
  let key := make_key md5hex city street house url next_day
  match lookupKey key st.cache with
  | none => (none, st)
  | some entry =>
    if isExpired now st.ttl entry then
      (none, { st with cache := eraseKey key st.cache })
    else
      (some entry.schedule, st)

/-- `ScheduleCache.set` (src/cache.py lines 50–59): cleanup, evict if needed,
then insert with a fresh timestamp. -/
def ScheduleCache.set (md5hex : String → String) (now : Nat)
    (st : ScheduleCacheState) (city street house url : String)
    (schedule : List ScheduleItem) (next_day : Bool) : ScheduleCacheState :=
  let key := make_key md5hex city street house url next_day
  let st1 := cleanupExpired now st
  let st2 := evictIfNeeded st1
  { st2 with cache := setKey key ⟨schedule, now⟩ st2.cache }

/-- One persistent cache entry (src/persistent_cache.py `set`, lines 166–174):
schedule, creation timestamp, last-access timestamp and the address fields
(the URL is not stored). -/
structure PCacheEntry where
  schedule : List ScheduleItem
  timestamp : Nat
  last_accessed : Nat
  city : String
  street : String
  house : String
  next_day : Bool
  deriving DecidableEq, Repr

/-- The in-memory state of a `PersistentScheduleCache` object: dict, bounds
and the hit/miss counters.  `_save_to_disk` / `_load_from_disk` are I/O and
do not change this state; they are modelled as the identity. -/
structure PersistentCacheState where
  cache : List (String × PCacheEntry)
  max_size : Nat
  ttl : Nat
  hits : Nat
  misses : Nat
  deriving DecidableEq, Repr

/-- Persistent `_is_expired` (same formula as the in-memory one). -/
def pIsExpired (now ttl : Nat) (e : PCacheEntry) : Bool :=
  ttl < now - e.timestamp

/-- Persistent `_cleanup_expired`. -/
def pCleanupExpired (now : Nat) (st : PersistentCacheState) : PersistentCacheState :=
  { st with cache := st.cache.filter (fun kv => !pIsExpired now st.ttl kv.2) }

/-- Persistent `_evict_if_needed` (keyed on the creation `timestamp` field,
not `last_accessed`). -/
def pEvictIfNeeded (st : PersistentCacheState) : PersistentCacheState :=
  if st.max_size ≤ st.cache.length then
    match oldestKey (fun e : PCacheEntry => e.timestamp) st.cache with
    | some k => { st with cache := eraseKey k st.cache }
    | none => st
  else st

/-- `PersistentScheduleCache.get` (lines 114–145): a miss (absent key, or
expired entry, which is deleted) increments `misses`; a hit increments
`hits`, refreshes `last_accessed` and returns the stored schedule. -/
def PersistentScheduleCache.get (md5hex : String → String) (now : Nat)
    (st : PersistentCacheState) (city street house url : String)
    (next_day : Bool) : Option (List ScheduleItem) × PersistentCacheState :=
  let key := make_key md5hex city street house url next_day
  match lookupKey key st.cache with
  | none => (none, { st with misses := st.misses + 1 })
  | some entry =>
    if pIsExpired now st.ttl entry then
      (none, { st with cache := eraseKey key st.cache, misses := st.misses + 1 })
    else
      (some entry.schedule,
        { st with hits := st.hits + 1,
                  cache := setKey key { entry with last_accessed := now } st.cache })

/-- `PersistentScheduleCache.set` (lines 147–177): cleanup, evict if needed,
insert with fresh timestamps and the address fields, then `_save_to_disk`
(I/O, identity on this state). -/
def PersistentScheduleCache.set (md5hex : String → String) (now : Nat)
    (st : PersistentCacheState) (city street house url : String)
    (schedule : List ScheduleItem) (next_day : Bool) : PersistentCacheState :=
  let key := make_key md5hex city street house url next_day
  let st1 := pCleanupExpired now st
  let st2 := pEvictIfNeeded st1
  { st2 with cache := setKey key ⟨schedule, now, now, city, street, house, next_day⟩ st2.cache }

/-! ## Cache lemmas -/

/-- Looking up a key right after assigning it finds the assigned value. -/
theorem lookupKey_setKey_self {α : Type} (k : String) (v : α)
    (l : List (String × α)) : lookupKey k (setKey k v l) = some v := by
  induction l with
  | nil => simp [setKey, lookupKey]
  | cons kv rest ih =>
    by_cases h : kv.1 = k <;> simp [setKey, lookupKey, h, ih]

/-- The `min` scan returns the seed or a list element. -/
theorem minByTs_mem {α : Type} (tsf : α → Nat) (best : String × α)
    (l : List (String × α)) : minByTs tsf best l ∈ best :: l := by
  induction l generalizing best with
  | nil => simp [minByTs]
  | cons kv rest ih =>
    have h := ih (if tsf kv.2 < tsf best.2 then kv else best)
    by_cases hc : tsf kv.2 < tsf best.2 <;> simp [hc] at h <;>
      simp [minByTs, hc] <;> tauto

/-- The `min` scan result is at most the seed. -/
theorem minByTs_le_seed {α : Type} (tsf : α → Nat) (best : String × α)
    (l : List (String × α)) :
    tsf (minByTs tsf best l).2 ≤ tsf best.2 := by
  induction l generalizing best with
  | nil => simp [minByTs]
  | cons kv rest ih =>
    have h := ih (if tsf kv.2 < tsf best.2 then kv else best)
    by_cases hc : tsf kv.2 < tsf best.2 <;>
      simp [minByTs, hc] at h ⊢ <;> omega

/-- The `min` scan result is at most every list element. -/
theorem minByTs_le_mem {α : Type} (tsf : α → Nat) (best : String × α)
    (l : List (String × α)) :
    ∀ x ∈ l, tsf (minByTs tsf best l).2 ≤ tsf x.2 := by
  induction l generalizing best with
  | nil => simp
  | cons kv rest ih =>
    intro x hx
    rcases List.mem_cons.mp hx with rfl | hx
    · have h := minByTs_le_seed tsf (if tsf x.2 < tsf best.2 then x else best) rest
      by_cases hc : tsf x.2 < tsf best.2 <;>
        simp [minByTs, hc] at h ⊢ <;> omega
    · have h := ih (if tsf kv.2 < tsf best.2 then kv else best) x hx
      by_cases hc : tsf kv.2 < tsf best.2 <;>
        simp [minByTs, hc] at h ⊢ <;> omega

/-- `evictIfNeeded` only touches the dict, not the configuration fields. -/
theorem evictIfNeeded_ttl (st : ScheduleCacheState) :
    (evictIfNeeded st).ttl = st.ttl := by
  unfold evictIfNeeded
  by_cases h : st.max_size ≤ st.cache.length <;>
    cases hk : oldestKey (fun e : CacheEntry => e.timestamp) st.cache <;> simp [h, hk]

/-- Persistent `_evict_if_needed` preserves the ttl. -/
theorem pEvictIfNeeded_ttl (st : PersistentCacheState) :
    (pEvictIfNeeded st).ttl = st.ttl := by
  unfold pEvictIfNeeded
  by_cases h : st.max_size ≤ st.cache.length <;>
    cases hk : oldestKey (fun e : PCacheEntry => e.timestamp) st.cache <;> simp [h, hk]

/-- A `set` followed (with no intervening mutation) by a `get` whose request
hashes to the same key returns the stored schedule, provided no more than the
ttl elapsed in between.  Shared between C8 (same request) and C10 (distinct
colliding requests). -/
theorem cache_get_set_of_key_eq (md5hex : String → String)
    (now now2 : Nat) (st : ScheduleCacheState)
    (c1 s1 h1 u1 : String) (nd1 : Bool) (c2 s2 h2 u2 : String) (nd2 : Bool)
    (sched : List ScheduleItem)
    (hk : make_key md5hex c2 s2 h2 u2 nd2 = make_key md5hex c1 s1 h1 u1 nd1)
    (hT : now2 - now ≤ st.ttl) :
    (ScheduleCache.get md5hex now2
        (ScheduleCache.set md5hex now st c1 s1 h1 u1 sched nd1)
        c2 s2 h2 u2 nd2).1 = some sched := by
  have httl : (evictIfNeeded (cleanupExpired now st)).ttl = st.ttl := by
    rw [evictIfNeeded_ttl]
    rfl
  have hexp : isExpired now2 st.ttl ⟨sched, now⟩ = false := by
    simp only [isExpired, decide_eq_false_iff_not, not_lt]
    omega
  simp only [ScheduleCache.get, ScheduleCache.set, hk, lookupKey_setKey_self,
    httl, hexp, Bool.false_eq_true, if_false]

/-- Persistent analog of `cache_get_set_of_key_eq`. -/
theorem pcache_get_set_of_key_eq (md5hex : String → String)
    (now now2 : Nat) (st : PersistentCacheState)
    (c1 s1 h1 u1 : String) (nd1 : Bool) (c2 s2 h2 u2 : String) (nd2 : Bool)
    (sched : List ScheduleItem)
    (hk : make_key md5hex c2 s2 h2 u2 nd2 = make_key md5hex c1 s1 h1 u1 nd1)
    (hT : now2 - now ≤ st.ttl) :
    (PersistentScheduleCache.get md5hex now2
        (PersistentScheduleCache.set md5hex now st c1 s1 h1 u1 sched nd1)
        c2 s2 h2 u2 nd2).1 = some sched := by
  have httl : (pEvictIfNeeded (pCleanupExpired now st)).ttl = st.ttl := by
    rw [pEvictIfNeeded_ttl]
    rfl
  have hexp : pIsExpired now2 st.ttl ⟨sched, now, now, c1, s1, h1, nd1⟩ = false := by
    simp only [pIsExpired, decide_eq_false_iff_not, not_lt]
    omega
  simp only [PersistentScheduleCache.get, PersistentScheduleCache.set, hk,
    lookupKey_setKey_self, httl, hexp, Bool.false_eq_true, if_false]

/-! ## Claims C4, C7, C8, C10 — Result Cache -/

/-- C4 counterexample: "the Result Cache's get increments the hit / miss
counter" fails for the in-memory `ScheduleCache` (the variant bot.py actually
imports): its class has no counter fields at all, and a `get` on a never-set
key returns with the object state — faithfully embedded as the whole of its
mutable data — completely unchanged, so no miss counter is incremented. -/
theorem c4_counterexample :
    ScheduleCache.get (fun s => s) 0 ⟨[], 100, 5⟩ "c" "s" "h" "u" false =
      (none, ⟨[], 100, 5⟩) := rfl

/-- C4 (amended): only the persistent variant maintains counters — its `get`
increments `hits` exactly when it returns a stored sequence and `misses`
exactly when it returns absent (never both) — while the in-memory
`ScheduleCache.get` on an absent key leaves its entire state unchanged. -/
theorem c4_counters_persistent_only :
    (∀ (md5hex : String → String) (now : Nat) (st : PersistentCacheState)
        (c s h u : String) (nd : Bool),
      ((PersistentScheduleCache.get md5hex now st c s h u nd).1.isSome = true →
        (PersistentScheduleCache.get md5hex now st c s h u nd).2.hits = st.hits + 1 ∧
        (PersistentScheduleCache.get md5hex now st c s h u nd).2.misses = st.misses) ∧
      ((PersistentScheduleCache.get md5hex now st c s h u nd).1 = none →
        (PersistentScheduleCache.get md5hex now st c s h u nd).2.misses = st.misses + 1 ∧
        (PersistentScheduleCache.get md5hex now st c s h u nd).2.hits = st.hits)) ∧
    (∀ (md5hex : String → String) (now : Nat) (st : ScheduleCacheState)
        (c s h u : String) (nd : Bool),
      lookupKey (make_key md5hex c s h u nd) st.cache = none →
      ScheduleCache.get md5hex now st c s h u nd = (none, st)) := by
  constructor
  · intro md5hex now st c s h u nd
    simp only [PersistentScheduleCache.get]
    cases hl : lookupKey (make_key md5hex c s h u nd) st.cache with
    | none => simp
    | some e =>
      by_cases hexp : pIsExpired now st.ttl e = true <;> simp [hexp]
  · intro md5hex now st c s h u nd hl
    simp only [ScheduleCache.get, hl]

/-- Witness for `c4_counters_persistent_only`: a concrete persistent cache
holding one fresh entry; a hit takes the counters from (0, 0) to (1, 0). -/
theorem c4_counters_persistent_only_witness :
    (PersistentScheduleCache.get (fun s => s) 0
        ⟨[("c|s|h|u|False", ⟨[⟨"00:00-00:30", "off"⟩], 0, 0, "c", "s", "h", false⟩)],
          100, 5, 0, 0⟩
        "c" "s" "h" "u" false).2.hits = 0 + 1 ∧
    (PersistentScheduleCache.get (fun s => s) 0
        ⟨[("c|s|h|u|False", ⟨[⟨"00:00-00:30", "off"⟩], 0, 0, "c", "s", "h", false⟩)],
          100, 5, 0, 0⟩
        "c" "s" "h" "u" false).2.misses = 0 :=
  (c4_counters_persistent_only.1 (fun s => s) 0
    ⟨[("c|s|h|u|False", ⟨[⟨"00:00-00:30", "off"⟩], 0, 0, "c", "s", "h", false⟩)],
      100, 5, 0, 0⟩
    "c" "s" "h" "u" false).1 rfl

/-- C7: a `set` that, after the expiry sweep, finds the dict at or above
capacity evicts exactly one entry — one carrying the minimal creation
timestamp (`timestamp`, not `last_accessed`) — and then inserts the new
entry with timestamp `now`: the final dict is literally
`setKey key (fresh entry) (eraseKey k0 swept)` for a single oldest key `k0`.
Proved for both cache variants (capacity assumed positive; with capacity 0
and an empty swept dict the source's `min([])` would raise instead). -/
theorem c7_set_evicts_single_oldest :
    (∀ (md5hex : String → String) (now : Nat) (st : ScheduleCacheState)
        (c s h u : String) (nd : Bool) (sched : List ScheduleItem),
      0 < st.max_size →
      st.max_size ≤ (cleanupExpired now st).cache.length →
      ∃ k0 e0, (k0, e0) ∈ (cleanupExpired now st).cache ∧
        (∀ kv ∈ (cleanupExpired now st).cache, e0.timestamp ≤ kv.2.timestamp) ∧
        (ScheduleCache.set md5hex now st c s h u sched nd).cache =
          setKey (make_key md5hex c s h u nd) ⟨sched, now⟩
            (eraseKey k0 (cleanupExpired now st).cache)) ∧
    (∀ (md5hex : String → String) (now : Nat) (st : PersistentCacheState)
        (c s h u : String) (nd : Bool) (sched : List ScheduleItem),
      0 < st.max_size →
      st.max_size ≤ (pCleanupExpired now st).cache.length →
      ∃ k0 e0, (k0, e0) ∈ (pCleanupExpired now st).cache ∧
        (∀ kv ∈ (pCleanupExpired now st).cache, e0.timestamp ≤ kv.2.timestamp) ∧
        (PersistentScheduleCache.set md5hex now st c s h u sched nd).cache =
          setKey (make_key md5hex c s h u nd) ⟨sched, now, now, c, s, h, nd⟩
            (eraseKey k0 (pCleanupExpired now st).cache)) := by
  constructor
  · intro md5hex now st c s h u nd sched hpos hlen
    cases hc : (cleanupExpired now st).cache with
    | nil => rw [hc] at hlen; simp at hlen; omega
    | cons kv rest =>
      refine ⟨(minByTs (fun e : CacheEntry => e.timestamp) kv rest).1,
              (minByTs (fun e : CacheEntry => e.timestamp) kv rest).2, ?_, ?_, ?_⟩
      · simpa using minByTs_mem _ kv rest
      · intro kv2 hkv2
        rcases List.mem_cons.mp hkv2 with rfl | hm
        · exact minByTs_le_seed _ _ rest
        · exact minByTs_le_mem _ _ rest kv2 hm
      · simp only [ScheduleCache.set, evictIfNeeded, hc, oldestKey]
        rw [hc] at hlen
        have hms : (cleanupExpired now st).max_size = st.max_size := rfl
        rw [hms, if_pos hlen]
  · intro md5hex now st c s h u nd sched hpos hlen
    cases hc : (pCleanupExpired now st).cache with
    | nil => rw [hc] at hlen; simp at hlen; omega
    | cons kv rest =>
      refine ⟨(minByTs (fun e : PCacheEntry => e.timestamp) kv rest).1,
              (minByTs (fun e : PCacheEntry => e.timestamp) kv rest).2, ?_, ?_, ?_⟩
      · simpa using minByTs_mem _ kv rest
      · intro kv2 hkv2
        rcases List.mem_cons.mp hkv2 with rfl | hm
        · exact minByTs_le_seed _ _ rest
        · exact minByTs_le_mem _ _ rest kv2 hm
      · simp only [PersistentScheduleCache.set, pEvictIfNeeded, hc, oldestKey]
        rw [hc] at hlen
        have hms : (pCleanupExpired now st).max_size = st.max_size := rfl
        rw [hms, if_pos hlen]

/-- Witness for `c7_set_evicts_single_oldest`: a two-entry cache at capacity
2; the `set` evicts a single oldest-created entry before inserting. -/
theorem c7_set_evicts_single_oldest_witness :
    ∃ k0 e0,
      (k0, e0) ∈ (cleanupExpired 10
        ⟨[("k1", ⟨[], 5⟩), ("k2", ⟨[], 10⟩)], 2, 100⟩).cache ∧
      (∀ kv ∈ (cleanupExpired 10
          ⟨[("k1", ⟨[], 5⟩), ("k2", ⟨[], 10⟩)], 2, 100⟩).cache,
        e0.timestamp ≤ kv.2.timestamp) ∧
      (ScheduleCache.set (fun s => s) 10
          ⟨[("k1", ⟨[], 5⟩), ("k2", ⟨[], 10⟩)], 2, 100⟩
          "c" "s" "h" "u" [] false).cache =
        setKey (make_key (fun s => s) "c" "s" "h" "u" false) ⟨[], 10⟩
          (eraseKey k0 (cleanupExpired 10
            ⟨[("k1", ⟨[], 5⟩), ("k2", ⟨[], 10⟩)], 2, 100⟩).cache) :=
  c7_set_evicts_single_oldest.1 (fun s => s) 10
    ⟨[("k1", ⟨[], 5⟩), ("k2", ⟨[], 10⟩)], 2, 100⟩
    "c" "s" "h" "u" false [] (by decide) (by decide)

/-- C8: for every key (address fields plus day flag) and every schedule,
`set` followed immediately by `get` with the same key — within the ttl —
returns exactly the stored sequence, in both cache variants, for an
arbitrary digest function. -/
theorem c8_set_then_get_returns_stored (md5hex : String → String)
    (now now2 : Nat) (st : ScheduleCacheState) (stP : PersistentCacheState)
    (c s h u : String) (nd : Bool) (sched : List ScheduleItem) :
    (now2 - now ≤ st.ttl →
      (ScheduleCache.get md5hex now2
          (ScheduleCache.set md5hex now st c s h u sched nd)
          c s h u nd).1 = some sched) ∧
    (now2 - now ≤ stP.ttl →
      (PersistentScheduleCache.get md5hex now2
          (PersistentScheduleCache.set md5hex now stP c s h u sched nd)
          c s h u nd).1 = some sched) :=
  ⟨fun hT => cache_get_set_of_key_eq md5hex now now2 st
      c s h u nd c s h u nd sched rfl hT,
   fun hT => pcache_get_set_of_key_eq md5hex now now2 stP
      c s h u nd c s h u nd sched rfl hT⟩

/-- Witness for `c8_set_then_get_returns_stored`: concrete empty caches,
`set` then `get` at the same instant. -/
theorem c8_set_then_get_returns_stored_witness :
    (ScheduleCache.get (fun s => s) 0
        (ScheduleCache.set (fun s => s) 0 ⟨[], 100, 5⟩ "c" "s" "h" "u"
          [⟨"00:00-00:30", "off"⟩] false)
        "c" "s" "h" "u" false).1 = some [⟨"00:00-00:30", "off"⟩] ∧
    (PersistentScheduleCache.get (fun s => s) 0
        (PersistentScheduleCache.set (fun s => s) 0 ⟨[], 100, 5, 0, 0⟩
          "c" "s" "h" "u" [⟨"00:00-00:30", "off"⟩] false)
        "c" "s" "h" "u" false).1 = some [⟨"00:00-00:30", "off"⟩] :=
  ⟨(c8_set_then_get_returns_stored (fun s => s) 0 0 ⟨[], 100, 5⟩
      ⟨[], 100, 5, 0, 0⟩ "c" "s" "h" "u" false [⟨"00:00-00:30", "off"⟩]).1
      (by decide),
   (c8_set_then_get_returns_stored (fun s => s) 0 0 ⟨[], 100, 5⟩
      ⟨[], 100, 5, 0, 0⟩ "c" "s" "h" "u" false [⟨"00:00-00:30", "off"⟩]).2
      (by decide)⟩

/-- C10: the cache key is the digest of the request fields joined with `|`,
so the two distinct requests `("a|b","c","h","u",False)` and
`("a","b|c","h","u",False)` produce the same joined string
`"a|b|c|h|u|False"`, hence the same key for any digest function — and a
schedule `set` under the first request is returned by a `get` for the
second, in both cache variants. -/
theorem c10_pipe_join_key_collision (md5hex : String → String) :
    (("a|b", "c", "h", "u", false) :
        String × String × String × String × Bool) ≠
      ("a", "b|c", "h", "u", false) ∧
    make_key md5hex "a|b" "c" "h" "u" false =
      make_key md5hex "a" "b|c" "h" "u" false ∧
    (∀ (now : Nat) (st : ScheduleCacheState) (sched : List ScheduleItem),
      (ScheduleCache.get md5hex now
          (ScheduleCache.set md5hex now st "a|b" "c" "h" "u" sched false)
          "a" "b|c" "h" "u" false).1 = some sched) ∧
    (∀ (now : Nat) (st : PersistentCacheState) (sched : List ScheduleItem),
      (PersistentScheduleCache.get md5hex now
          (PersistentScheduleCache.set md5hex now st "a|b" "c" "h" "u" sched false)
          "a" "b|c" "h" "u" false).1 = some sched) := by
  have hk : make_key md5hex "a" "b|c" "h" "u" false =
      make_key md5hex "a|b" "c" "h" "u" false :=
    congrArg md5hex (by decide)
  refine ⟨by decide, hk.symm, ?_, ?_⟩
  · intro now st sched
    exact cache_get_set_of_key_eq md5hex now now st
      "a|b" "c" "h" "u" false "a" "b|c" "h" "u" false sched hk (by omega)
  · intro now st sched
    exact pcache_get_set_of_key_eq md5hex now now st
      "a|b" "c" "h" "u" false "a" "b|c" "h" "u" false sched hk (by omega)

/-! ## Task Executor (src/parser_service.py `_parse_with_retry`,
`_run_automation`)

One attempt's interaction with the external automation is an
`AttemptOutcome`: the browser run either returned a boolean or raised.
`_run_automation` wraps it in `try/except`: any exception is caught (the
task's error field is recorded) and `False` is returned — so the value
reaching `_parse_with_retry`'s `await asyncio.to_thread(...)` never raises
in the composed system.  `_parse_with_retry` itself is embedded over an
arbitrary per-attempt thread result `Nat → Except String Bool` (`.error`
models an exception escaping the threaded call), returning the Python
return value, the stored result, the sequence of backoff sleeps performed,
and the last recorded error. -/

/-- What the external `DTEKAutomation(...).run()` call did on one attempt. -/
inductive AttemptOutcome where
  | ok (b : Bool)
  | exn (msg : String)
  deriving DecidableEq, Repr

/-- `_run_automation` (lines 198–224): return the automation's boolean;
catch any exception and return `False`. -/
def run_automation : AttemptOutcome → Bool
  | .ok b => b
  | .exn _ => false

/-- Observable outcome of one `_parse_with_retry` call: the returned
boolean, `task.result`, the backoff sleeps in order, and `task.error` as
set at the retry level. -/
structure RetryTrace where
  success : Bool
  result : Option Bool
  sleeps : List Nat
  error : Option String
  deriving DecidableEq, Repr

/-- The `for attempt in range(1, max_attempts + 1)` loop of
`_parse_with_retry` (lines 173–196): on a truthy thread result, store it and
return `True`; on a falsy result, retry immediately; on an exception, record
it and — only if attempts remain — sleep `2 ** attempt` before retrying.
`fuel` counts the remaining loop iterations (`maxA` at the start). -/
def retryGo (f : Nat → Except String Bool) (maxA : Nat) (err : Option String)
    (attempt : Nat) : Nat → RetryTrace
  | 0 => ⟨false, none, [], err⟩
  | fuel + 1 =>
    match f attempt with
    | .ok true => ⟨true, some true, [], err⟩
    | .ok false => retryGo f maxA err (attempt + 1) fuel
    | .error e =>
      let rest := retryGo f maxA (some e) (attempt + 1) fuel
      if attempt < maxA then
        { rest with sleeps := 2 ^ attempt :: rest.sleeps }
      else rest

/-- `_parse_with_retry` with attempt ceiling `maxAttempts` (the source's
default is 3). -/
def parse_with_retry (f : Nat → Except String Bool) (maxAttempts : Nat) :
    RetryTrace :=
  retryGo f maxAttempts none 1 maxAttempts

/-- The thread-level attempt function of the composed system: `to_thread`
returns whatever `_run_automation` returns and never raises, because
`_run_automation` catches every exception itself. -/
def composedAttempts (g : Nat → AttemptOutcome) : Nat → Except String Bool :=
  fun i => .ok (run_automation (g i))

/-- Attempt behavior for the C3 counterexample: the automation raises on
attempts 1 and 2 and succeeds on attempt 3. -/
def gC3 : Nat → AttemptOutcome :=
  fun i => if i ≤ 2 then .exn "boom" else .ok true

/-- C3 counterexample: a run whose first two attempts fail (here: the
automation raises, the strongest failure mode) and whose third succeeds
does complete with the third attempt's result — but with an empty list of
backoff delays, not two: the `2 ** attempt` sleep fires only on an
exception escaping the threaded call, and `_run_automation` converts every
exception into a plain `False` return, which retries immediately. -/
theorem c3_counterexample :
    run_automation (gC3 1) = false ∧
    run_automation (gC3 2) = false ∧
    run_automation (gC3 3) = true ∧
    parse_with_retry (composedAttempts gC3) 3 =
      ⟨true, some true, [], none⟩ ∧
    ([] : List Nat) ≠ [2, 4] :=
  ⟨rfl, rfl, rfl, rfl, by decide⟩

/-- C3 (amended): the executor sleeps `2^attempt` between attempts only when
an attempt raises out of the threaded call; since `_run_automation` catches
every exception and returns `False`, any fail-fail-succeed run of the
composed system completes with the third attempt's result after zero backoff
delays — the claimed two delays `[2, 4]` (and the recorded last error) occur
exactly when the first two thread-level attempts themselves raise. -/
theorem c3_backoff_only_on_escaping_exceptions :
    (∀ g : Nat → AttemptOutcome,
      run_automation (g 1) = false →
      run_automation (g 2) = false →
      run_automation (g 3) = true →
      parse_with_retry (composedAttempts g) 3 = ⟨true, some true, [], none⟩) ∧
    (∀ (f : Nat → Except String Bool) (e1 e2 : String),
      f 1 = .error e1 →
      f 2 = .error e2 →
      f 3 = .ok true →
      parse_with_retry f 3 = ⟨true, some true, [2, 4], some e2⟩) := by
  constructor
  · intro g h1 h2 h3
    simp [parse_with_retry, retryGo, composedAttempts, h1, h2, h3]
  · intro f e1 e2 h1 h2 h3
    simp [parse_with_retry, retryGo, h1, h2, h3]

/-- Witness for `c3_backoff_only_on_escaping_exceptions`: the concrete
fail-fail-succeed behaviors. -/
theorem c3_backoff_only_on_escaping_exceptions_witness :
    parse_with_retry (composedAttempts gC3) 3 = ⟨true, some true, [], none⟩ ∧
    parse_with_retry
        (fun i => if i = 1 then .error "e1" else
          if i = 2 then .error "e2" else .ok true) 3 =
      ⟨true, some true, [2, 4], some "e2"⟩ :=
  ⟨c3_backoff_only_on_escaping_exceptions.1 gC3 rfl rfl rfl,
   c3_backoff_only_on_escaping_exceptions.2
     (fun i => if i = 1 then .error "e1" else
       if i = 2 then .error "e2" else .ok true) "e1" "e2" rfl rfl rfl⟩

/-! ## Job Scheduler (src/parser_service.py `submit_task` / `_worker`)

The scheduler's observable job-status behavior is a transition system over:
the `self.tasks` dict (id → status), the `asyncio.Queue` contents (a FIFO
list of ids), and the multiset of ids currently being processed by some
worker.  Transitions mirror the source:

  * `submit` (`submit_task`, lines 82–117): create a task with a fresh id in
    status pending and append the id to the queue.  Freshness is a
    hypothesis of the step: `task_id = str(uuid.uuid4())[:8]` is documented
    in the source as "уникальный идентификатор задачи" (a unique task id).
  * `dequeueHit` / `dequeueMiss` (`_worker`, lines 127–137): pop the queue
    head; if the id is absent from `self.tasks` the worker `continue`s,
    otherwise it sets the status to running and starts processing.
  * `finish` (`_worker`, lines 141–150): a worker holding a job sets its
    status to completed or failed (nothing else ever writes a status).

Any number of ids may be held simultaneously, which over-approximates a
fixed pool of workers, so every safety property proved here covers the
2-worker deployment. -/

/-- `TaskStatus` (src/parser_service.py lines 18–23). -/
inductive TaskStatus where
  | pending
  | running
  | completed
  | failed
  deriving DecidableEq, Repr

/-- Scheduler state: the task-status dict, the queue, and the held ids. -/
structure SchedulerState where
  tasks : List (String × TaskStatus)
  queue : List String
  held : List String
  deriving DecidableEq, Repr

/-- One scheduler transition. -/
inductive SchedStep : SchedulerState → SchedulerState → Prop where
  | submit (s : SchedulerState) (tid : String)
      (hfresh : lookupKey tid s.tasks = none) :
      SchedStep s ⟨setKey tid .pending s.tasks, s.queue ++ [tid], s.held⟩
  | dequeueHit (s : SchedulerState) (tid : String) (rest : List String)
      (st : TaskStatus) (hq : s.queue = tid :: rest)
      (htask : lookupKey tid s.tasks = some st) :
      SchedStep s ⟨setKey tid .running s.tasks, rest, tid :: s.held⟩
  | dequeueMiss (s : SchedulerState) (tid : String) (rest : List String)
      (hq : s.queue = tid :: rest) (htask : lookupKey tid s.tasks = none) :
      SchedStep s ⟨s.tasks, rest, s.held⟩
  | finish (s : SchedulerState) (tid : String) (done : TaskStatus)
      (hheld : tid ∈ s.held)
      (hdone : done = .completed ∨ done = .failed) :
      SchedStep s ⟨setKey tid done s.tasks, s.queue, s.held.erase tid⟩

/-- The scheduler before any request: empty dict, queue and workers. -/
def initState : SchedulerState := ⟨[], [], []⟩

/-- States the scheduler can actually be in. -/
def Reachable (s : SchedulerState) : Prop :=
  Relation.ReflTransGen SchedStep initState s

/-- The inductive invariant: every queued id is pending, every held id is
running, and neither list repeats an id. -/
def SchedInv (s : SchedulerState) : Prop :=
  (∀ tid ∈ s.queue, lookupKey tid s.tasks = some .pending) ∧
  (∀ tid ∈ s.held, lookupKey tid s.tasks = some .running) ∧
  s.queue.Nodup ∧ s.held.Nodup

/-- Assigning one key leaves every other key's lookup unchanged. -/
theorem lookupKey_setKey_ne {α : Type} (k k2 : String) (v : α)
    (l : List (String × α)) (hne : k2 ≠ k) :
    lookupKey k2 (setKey k v l) = lookupKey k2 l := by
  have hne2 : k ≠ k2 := fun h => hne h.symm
  induction l with
  | nil => simp [setKey, lookupKey, hne2]
  | cons kv rest ih =>
    simp only [setKey]
    by_cases h : kv.1 = k
    · simp [lookupKey, h, hne2]
    · simp [lookupKey, h, ih]

/-- Each scheduler step preserves the invariant. -/
theorem schedStep_preserves_inv {s s2 : SchedulerState}
    (hInv : SchedInv s) (hstep : SchedStep s s2) : SchedInv s2 := by
  obtain ⟨hq, hh, hqnd, hhnd⟩ := hInv
  cases hstep with
  | submit tid hfresh =>
    have hqid : tid ∉ s.queue := fun hmem => by
      have := hq tid hmem; rw [hfresh] at this; cases this
    refine ⟨?_, ?_, ?_, hhnd⟩
    · intro x hx
      rcases List.mem_append.mp hx with hx | hx
      · have hxs := hq x hx
        have hne : x ≠ tid := fun h => by subst h; rw [hfresh] at hxs; cases hxs
        rw [lookupKey_setKey_ne tid x _ _ hne]
        exact hxs
      · have hx2 : x = tid := by simpa using hx
        subst hx2
        exact lookupKey_setKey_self x _ s.tasks
    · intro x hx
      have hxs := hh x hx
      have hne : x ≠ tid := fun h => by subst h; rw [hfresh] at hxs; cases hxs
      rw [lookupKey_setKey_ne tid x _ _ hne]
      exact hxs
    · rw [List.nodup_append]
      refine ⟨hqnd, List.nodup_singleton tid, ?_⟩
      intro x hx hx2
      have hx3 : x = tid := by simpa using hx2
      subst hx3
      exact hqid hx
  | dequeueHit tid rest st hq2 htask =>
    have hqnd2 : (tid :: rest).Nodup := by rw [hq2] at hqnd; exact hqnd
    have hpend : lookupKey tid s.tasks = some .pending :=
      hq tid (by rw [hq2]; exact List.mem_cons_self tid rest)
    have hhid : tid ∉ s.held := fun hmem => by
      have := hh tid hmem
      rw [hpend] at this
      cases this
    refine ⟨?_, ?_, (List.nodup_cons.mp hqnd2).2, List.nodup_cons.mpr ⟨hhid, hhnd⟩⟩
    · intro x hx
      have hne : x ≠ tid := fun h => by
        subst h
        exact (List.nodup_cons.mp hqnd2).1 hx
      rw [lookupKey_setKey_ne tid x _ _ hne]
      exact hq x (by rw [hq2]; exact List.mem_cons_of_mem tid hx)
    · intro x hx
      rcases List.mem_cons.mp hx with rfl | hx
      · exact lookupKey_setKey_self x _ s.tasks
      · have hxs := hh x hx
        have hne : x ≠ tid := fun h => by
          subst h
          rw [hpend] at hxs
          cases hxs
        rw [lookupKey_setKey_ne tid x _ _ hne]
        exact hxs
  | dequeueMiss tid rest hq2 htask =>
    have hqnd2 : (tid :: rest).Nodup := by rw [hq2] at hqnd; exact hqnd
    exact ⟨fun x hx => hq x (by rw [hq2]; exact List.mem_cons_of_mem tid hx), hh,
      (List.nodup_cons.mp hqnd2).2, hhnd⟩
  | finish tid done hheld hdone =>
    have hrun : lookupKey tid s.tasks = some .running := hh tid hheld
    refine ⟨?_, ?_, hqnd, hhnd.erase tid⟩
    · intro x hx
      have hxs := hq x hx
      have hne : x ≠ tid := fun h => by
        subst h
        rw [hrun] at hxs
        cases hxs
      rw [lookupKey_setKey_ne tid x _ _ hne]
      exact hxs
    · intro x hx
      have hx2 := (List.Nodup.mem_erase_iff hhnd).mp hx
      have hxs := hh x hx2.2
      rw [lookupKey_setKey_ne tid x _ _ hx2.1]
      exact hxs

/-- Every reachable state satisfies the invariant. -/
theorem reachable_schedInv {s : SchedulerState} (h : Reachable s) :
    SchedInv s := by
  induction h with
  | refl =>
    refine ⟨?_, ?_, List.nodup_nil, List.nodup_nil⟩ <;>
      intro x hx <;> simp [initState] at hx
  | tail hsteps hstep ih => exact schedStep_preserves_inv ih hstep

/-- In an invariant state, one step never changes a terminal status: submit
only touches fresh ids, dequeue only touches pending ids, finish only
touches running ids. -/
theorem schedStep_preserves_terminal {s s2 : SchedulerState}
    (hInv : SchedInv s) (hstep : SchedStep s s2) (tid : String)
    (st : TaskStatus) (hlook : lookupKey tid s.tasks = some st)
    (hterm : st = TaskStatus.completed ∨ st = TaskStatus.failed) :
    lookupKey tid s2.tasks = some st := by
  obtain ⟨hq, hh, _, _⟩ := hInv
  cases hstep with
  | submit tid2 hfresh =>
    have hne : tid ≠ tid2 := fun h => by subst h; rw [hfresh] at hlook; cases hlook
    rw [lookupKey_setKey_ne tid2 tid _ _ hne]
    exact hlook
  | dequeueHit tid2 rest st2 hq2 htask =>
    have hpend : lookupKey tid2 s.tasks = some .pending :=
      hq tid2 (by rw [hq2]; exact List.mem_cons_self tid2 rest)
    have hne : tid ≠ tid2 := by
      intro h
      subst h
      rw [hlook] at hpend
      cases hpend
      rcases hterm with h | h <;> cases h
    rw [lookupKey_setKey_ne tid2 tid _ _ hne]
    exact hlook
  | dequeueMiss tid2 rest hq2 htask => exact hlook
  | finish tid2 done hheld hdone =>
    have hrun : lookupKey tid2 s.tasks = some .running := hh tid2 hheld
    have hne : tid ≠ tid2 := by
      intro h
      subst h
      rw [hlook] at hrun
      cases hrun
      rcases hterm with h | h <;> cases h
    rw [lookupKey_setKey_ne tid2 tid _ _ hne]
    exact hlook

/-- C9: in every reachable execution, once a Job's status is terminal
(completed or failed) it stays exactly that status across every further
sequence of scheduler steps — no Job ever returns to pending or running. -/
theorem c9_terminal_status_is_final {s s2 : SchedulerState}
    (hreach : Reachable s)
    (hsteps : Relation.ReflTransGen SchedStep s s2)
    (tid : String) (st : TaskStatus)
    (hlook : lookupKey tid s.tasks = some st)
    (hterm : st = TaskStatus.completed ∨ st = TaskStatus.failed) :
    lookupKey tid s2.tasks = some st := by
  induction hsteps with
  | refl => exact hlook
  | tail hab hbc ih =>
    exact schedStep_preserves_terminal
      (reachable_schedInv (hreach.trans hab)) hbc tid st ih hterm

/-- States of the concrete witness trace for C9. -/
def sW1 : SchedulerState := ⟨[("a", .pending)], ["a"], []⟩

/-- After the worker dequeues job "a". -/
def sW2 : SchedulerState := ⟨[("a", .running)], [], ["a"]⟩

/-- After the worker completes job "a". -/
def sW3 : SchedulerState := ⟨[("a", .completed)], [], []⟩

/-- After a second job "b" is submitted. -/
def sW4 : SchedulerState := ⟨[("a", .completed), ("b", .pending)], ["b"], []⟩

/-- Witness for `c9_terminal_status_is_final`: job "a" is submitted,
dequeued and completed, then a further step (submitting "b") occurs; "a" is
still completed. -/
theorem c9_terminal_status_is_final_witness :
    lookupKey "a" sW4.tasks = some TaskStatus.completed := by
  have h1 : SchedStep initState sW1 := SchedStep.submit initState "a" rfl
  have h2 : SchedStep sW1 sW2 :=
    SchedStep.dequeueHit sW1 "a" [] .pending rfl rfl
  have h3 : SchedStep sW2 sW3 :=
    SchedStep.finish sW2 "a" .completed (by decide) (Or.inl rfl)
  have h4 : SchedStep sW3 sW4 := SchedStep.submit sW3 "b" rfl
  exact c9_terminal_status_is_final
    (Relation.ReflTransGen.head h1
      (Relation.ReflTransGen.head h2 (Relation.ReflTransGen.single h3)))
    (Relation.ReflTransGen.single h4) "a" TaskStatus.completed rfl (Or.inl rfl)

/-! ## Interval Extractor (src/bot.py `extract_off_intervals`)

The extractor consumes the parser's schedule items; for each item it splits
the `"start-end"` interval label once on `-` (items are assumed well formed
with exactly one `-`, as the parser guarantees; Python would raise on the
tuple unpacking otherwise) and runs a linear scan with two loop variables,
`current_start` (the open block's start, or None) and `prev_end` (the last
"off" end seen, only ever read while a block is open). -/

/-- `start, end = item["interval"].split("-")` — the start label. -/
def intervalStart (it : ScheduleItem) : String :=
  (splitOnChar '-' it.interval).headD ""

/-- `start, end = item["interval"].split("-")` — the end label. -/
def intervalEnd (it : ScheduleItem) : String :=
  ((splitOnChar '-' it.interval).drop 1).headD ""

/-- The scan loop of `extract_off_intervals` (lines 69–82), including the
trailing flush: `cs` is `current_start`, `pe` is `prev_end` (its default is
never read: a block is closed only when `current_start` is set, and setting
`current_start` always sets `prev_end` in the same iteration). -/
def extractGo (cs pe : Option String) : List ScheduleItem → List (String × String)
  | [] =>
    match cs with
    | none => []
    | some s => [(s, pe.getD "")]
  | it :: rest =>
    if it.status = "off" then
      extractGo (some (cs.getD (intervalStart it))) (some (intervalEnd it)) rest
    else
      match cs with
      | none => extractGo none pe rest
      | some s => (s, pe.getD "") :: extractGo none pe rest

/-- `extract_off_intervals` (src/bot.py lines 63–84). -/
def extract_off_intervals (schedule : List ScheduleItem) :
    List (String × String) :=
  extractGo none none schedule

/-- A chronological StatusSlot sequence, measured through a time valuation
`v` of the interval labels (for the parser's labels, minutes-of-day): each
slot starts strictly before it ends, and each slot ends no later than any
later slot starts. -/
def Chrono (v : String → Nat) (l : List ScheduleItem) : Prop :=
  (∀ it ∈ l, v (intervalStart it) < v (intervalEnd it)) ∧
  l.Pairwise (fun a b => v (intervalEnd a) ≤ v (intervalStart b))

/-- The claim's properties of an extractor output `B` against an input `l`:
blocks are nonempty time ranges; every "off" slot is covered by a block;
no non-"off" slot is covered by a block; blocks are disjoint and sorted. -/
def ExtractOut (v : String → Nat) (l : List ScheduleItem)
    (B : List (String × String)) : Prop :=
  (∀ b ∈ B, v b.1 < v b.2) ∧
  (∀ it ∈ l, it.status = "off" →
    ∃ b ∈ B, v b.1 ≤ v (intervalStart it) ∧ v (intervalEnd it) ≤ v b.2) ∧
  (∀ it ∈ l, it.status ≠ "off" →
    ∀ b ∈ B, ¬(v b.1 ≤ v (intervalStart it) ∧ v (intervalEnd it) ≤ v b.2)) ∧
  B.Pairwise (fun b c => v b.2 < v c.1)

/-- Main induction for the extractor scan, tracking both loop states: from
the closed state (`cs = none`, any `pe`) the output satisfies `ExtractOut`
and every block starts no earlier than some "off" slot of the remaining
input; from an open state `(some s, some e)` — sound whenever `v s < v e`
and the open block ends before the remaining input starts — the output is
the open block (possibly extended) followed by blocks of the same shape. -/
theorem extractGo_spec (v : String → Nat) :
    ∀ l : List ScheduleItem,
    (∀ it ∈ l, v (intervalStart it) < v (intervalEnd it)) →
    l.Pairwise (fun a b => v (intervalEnd a) ≤ v (intervalStart b)) →
    ((∀ pe, ExtractOut v l (extractGo none pe l) ∧
       ∀ b ∈ extractGo none pe l, ∃ it ∈ l, it.status = "off" ∧
         v (intervalStart it) ≤ v b.1) ∧
     (∀ s e, v s < v e → (∀ it ∈ l, v e ≤ v (intervalStart it)) →
       ∃ e2 B2, extractGo (some s) (some e) l = (s, e2) :: B2 ∧
         v e ≤ v e2 ∧
         (∀ it ∈ l, it.status ≠ "off" → v e2 ≤ v (intervalStart it)) ∧
         (∀ b ∈ B2, ∃ it ∈ l, it.status = "off" ∧
           v (intervalStart it) ≤ v b.1) ∧
         ExtractOut v l ((s, e2) :: B2))) := by
  intro l
  induction l with
  | nil =>
    intro _ _
    constructor
    · intro pe
      exact ⟨⟨by simp [extractGo], by simp, by simp, by simp [extractGo]⟩,
        by simp [extractGo]⟩
    · intro s e hse hle
      refine ⟨e, [], rfl, le_refl _, by simp, by simp, ?_⟩
      refine ⟨?_, by simp, by simp, by simp⟩
      intro b hb
      have hb2 : b = (s, e) := by simpa using hb
      subst hb2
      exact hse
  | cons it rest ih =>
    intro hWl hPl
    have hWit : v (intervalStart it) < v (intervalEnd it) :=
      hWl it (List.mem_cons_self it rest)
    have hWr : ∀ x ∈ rest, v (intervalStart x) < v (intervalEnd x) :=
      fun x hx => hWl x (List.mem_cons_of_mem it hx)
    have hP1 : ∀ x ∈ rest, v (intervalEnd it) ≤ v (intervalStart x) :=
      (List.pairwise_cons.mp hPl).1
    have hPr := (List.pairwise_cons.mp hPl).2
    obtain ⟨ihn, ihs⟩ := ih hWr hPr
    by_cases hst : it.status = "off"
    · -- head slot is "off"
      constructor
      · -- closed state: opens a block at the head slot
        intro pe
        have hred : extractGo none pe (it :: rest) =
            extractGo (some (intervalStart it)) (some (intervalEnd it)) rest := by
          simp [extractGo, hst]
        obtain ⟨e2, B2, hB, hee2, hE2, hLB2, hWb, hP3, hP4, hP2⟩ :=
          ihs (intervalStart it) (intervalEnd it) hWit hP1
        rw [hred, hB]
        refine ⟨⟨hWb, ?_, ?_, hP2⟩, ?_⟩
        · intro x hx hxoff
          rcases List.mem_cons.mp hx with rfl | hx
          · exact ⟨(intervalStart x, e2), List.mem_cons_self _ _,
              le_refl _, hee2⟩
          · exact hP3 x hx hxoff
        · intro x hx hxnoff
          rcases List.mem_cons.mp hx with rfl | hx
          · exact absurd hst hxnoff
          · exact hP4 x hx hxnoff
        · intro b hb
          rcases List.mem_cons.mp hb with rfl | hb
          · exact ⟨it, List.mem_cons_self it rest, hst, le_refl _⟩
          · obtain ⟨x, hx, hxoff, hxle⟩ := hLB2 b hb
            exact ⟨x, List.mem_cons_of_mem it hx, hxoff, hxle⟩
      · -- open state: the head slot extends the open block
        intro s e hse hle
        have hle_it : v e ≤ v (intervalStart it) :=
          hle it (List.mem_cons_self it rest)
        have hse2 : v s < v (intervalEnd it) :=
          lt_of_lt_of_le hse (le_trans hle_it (le_of_lt hWit))
        obtain ⟨e2, B2, hB, hee2, hE2, hLB2, hWb, hP3, hP4, hP2⟩ :=
          ihs s (intervalEnd it) hse2 hP1
        have hred : extractGo (some s) (some e) (it :: rest) =
            extractGo (some s) (some (intervalEnd it)) rest := by
          simp [extractGo, hst]
        refine ⟨e2, B2, by rw [hred, hB], ?_, ?_, ?_, hWb, ?_, ?_, hP2⟩
        · exact le_trans hle_it (le_trans (le_of_lt hWit) hee2)
        · intro x hx hxnoff
          rcases List.mem_cons.mp hx with rfl | hx
          · exact absurd hst hxnoff
          · exact hE2 x hx hxnoff
        · intro b hb
          obtain ⟨x, hx, hxoff, hxle⟩ := hLB2 b hb
          exact ⟨x, List.mem_cons_of_mem it hx, hxoff, hxle⟩
        · intro x hx hxoff
          rcases List.mem_cons.mp hx with rfl | hx
          · exact ⟨(s, e2), List.mem_cons_self _ _,
              le_trans (le_of_lt hse) (hle x (List.mem_cons_self x rest)), hee2⟩
          · exact hP3 x hx hxoff
        · intro x hx hxnoff
          rcases List.mem_cons.mp hx with rfl | hx
          · exact absurd hst hxnoff
          · exact hP4 x hx hxnoff
    · -- head slot is not "off"
      constructor
      · -- closed state: skip the head slot
        intro pe
        have hred : extractGo none pe (it :: rest) = extractGo none pe rest := by
          simp [extractGo, hst]
        obtain ⟨⟨hWb, hP3, hP4, hP2⟩, hLB⟩ := ihn pe
        rw [hred]
        refine ⟨⟨hWb, ?_, ?_, hP2⟩, ?_⟩
        · intro x hx hxoff
          rcases List.mem_cons.mp hx with rfl | hx
          · exact absurd hxoff hst
          · exact hP3 x hx hxoff
        · intro x hx hxnoff b hb
          rcases List.mem_cons.mp hx with rfl | hx
          · rintro ⟨hb1, hb2⟩
            obtain ⟨x2, hx2, hx2off, hx2le⟩ := hLB b hb
            have h1 := hP1 x2 hx2
            have h2 := hWl x (List.mem_cons_self x rest)
            omega
          · exact hP4 x hx hxnoff b hb
        · intro b hb
          obtain ⟨x, hx, hxoff, hxle⟩ := hLB b hb
          exact ⟨x, List.mem_cons_of_mem it hx, hxoff, hxle⟩
      · -- open state: the head slot closes the open block
        intro s e hse hle
        have hred : extractGo (some s) (some e) (it :: rest) =
            (s, e) :: extractGo none (some e) rest := by
          simp [extractGo, hst]
        obtain ⟨⟨hWb, hP3, hP4, hP2⟩, hLB⟩ := ihn (some e)
        refine ⟨e, extractGo none (some e) rest, hred, le_refl _, ?_, ?_,
          ?_, ?_, ?_, ?_⟩
        · intro x hx _
          exact hle x hx
        · intro b hb
          obtain ⟨x, hx, hxoff, hxle⟩ := hLB b hb
          exact ⟨x, List.mem_cons_of_mem it hx, hxoff, hxle⟩
        · intro b hb
          rcases List.mem_cons.mp hb with rfl | hb
          · exact hse
          · exact hWb b hb
        · intro x hx hxoff
          rcases List.mem_cons.mp hx with rfl | hx
          · exact absurd hxoff hst
          · obtain ⟨b, hb, hble⟩ := hP3 x hx hxoff
            exact ⟨b, List.mem_cons_of_mem _ hb, hble⟩
        · intro x hx hxnoff b hb
          rcases List.mem_cons.mp hb with rfl | hb
          · rintro ⟨hb1, hb2⟩
            have hb2x : v (intervalEnd x) ≤ v e := hb2
            have h1 := hle x hx
            have h2 := hWl x hx
            omega
          · rcases List.mem_cons.mp hx with rfl | hx
            · rintro ⟨hb1, hb2⟩
              obtain ⟨x2, hx2, hx2off, hx2le⟩ := hLB b hb
              have h1 := hP1 x2 hx2
              have h2 := hWl x (List.mem_cons_self x rest)
              omega
            · exact hP4 x hx hxnoff b hb
        · refine List.pairwise_cons.mpr ⟨?_, hP2⟩
          intro c hc
          show v e < v c.1
          obtain ⟨x2, hx2, hx2off, hx2le⟩ := hLB c hc
          have h1 := hle it (List.mem_cons_self it rest)
          have h2 := hP1 x2 hx2
          omega

/-- C2: for every chronological StatusSlot sequence (measured through any
time valuation `v` of the labels), the Interval Extractor's blocks are
nonempty ranges, pairwise non-overlapping and ordered by start time, and a
slot is covered by some block exactly when its status is "off"; in
particular an "unknown" slot never lies inside a block. -/
theorem c2_extractor_partitions_off (v : String → Nat)
    (l : List ScheduleItem) (hc : Chrono v l) :
    (∀ b ∈ extract_off_intervals l, v b.1 < v b.2) ∧
    (extract_off_intervals l).Pairwise (fun b c => v b.2 < v c.1) ∧
    (∀ it ∈ l, (it.status = "off" ↔
      ∃ b ∈ extract_off_intervals l,
        v b.1 ≤ v (intervalStart it) ∧ v (intervalEnd it) ≤ v b.2)) ∧
    (∀ it ∈ l, it.status = "unknown" →
      ¬∃ b ∈ extract_off_intervals l,
        v b.1 ≤ v (intervalStart it) ∧ v (intervalEnd it) ≤ v b.2) := by
  obtain ⟨hW, hP⟩ := hc
  obtain ⟨hn, _⟩ := extractGo_spec v l hW hP
  obtain ⟨⟨hWb, hP3, hP4, hP2⟩, _⟩ := hn none
  refine ⟨hWb, hP2, ?_, ?_⟩
  · intro it hit
    constructor
    · exact hP3 it hit
    · intro hcov
      by_contra hnoff
      obtain ⟨b, hb, hble⟩ := hcov
      exact hP4 it hit hnoff b hb hble
  · intro it hit hu
    have hnoff : it.status ≠ "off" := by rw [hu]; decide
    rintro ⟨b, hb, hble⟩
    exact hP4 it hit hnoff b hb hble

/-- Concrete witness schedule: off, on, off — with labels whose length is
their time valuation. -/
def c2wl : List ScheduleItem :=
  [⟨"a-bb", "off"⟩, ⟨"bb-ccc", "on"⟩, ⟨"ccc-dddd", "off"⟩]

/-- Witness for `c2_extractor_partitions_off` at `c2wl` with the string
length as time valuation. -/
theorem c2_extractor_partitions_off_witness :
    (∀ b ∈ extract_off_intervals c2wl, b.1.length < b.2.length) ∧
    (extract_off_intervals c2wl).Pairwise (fun b c => b.2.length < c.1.length) ∧
    (∀ it ∈ c2wl, (it.status = "off" ↔
      ∃ b ∈ extract_off_intervals c2wl,
        b.1.length ≤ (intervalStart it).length ∧
        (intervalEnd it).length ≤ b.2.length)) ∧
    (∀ it ∈ c2wl, it.status = "unknown" →
      ¬∃ b ∈ extract_off_intervals c2wl,
        b.1.length ≤ (intervalStart it).length ∧
        (intervalEnd it).length ≤ b.2.length) :=
  c2_extractor_partitions_off String.length c2wl ⟨by decide, by decide⟩
